import Mathlib

/-!
Verification development for the AIs-Talk debate orchestrator.

The Go sources are shallowly embedded as executable Lean definitions:
strings are `List Char`, the Manager's mutex-guarded state is an explicit
record threaded through pure step functions, streaming channels are lists
of chunks supplied as oracles, and the `regexp` cascade of the content
sanitizer is run by a small backtracking matcher over pattern ASTs that
transcribe the Go patterns.
-/

/-- Strings are modelled as lists of characters (Go byte indices coincide
with character indices on the ASCII inputs the proofs use). -/
abbrev Str := List Char

/-- Go `strings.ToLower`, restricted to the ASCII mapping (the only case
conversion exercised by the embedded code paths). -/
def toLowerGo (c : Char) : Char :=
  if 'A' ≤ c ∧ c ≤ 'Z' then Char.ofNat (c.toNat + 32) else c

/-- Go `unicode.IsSpace` on the ASCII range (used by `strings.TrimSpace`). -/
def isSpaceGo (c : Char) : Bool :=
  c = ' ' || c = '\t' || c = '\n' || c = Char.ofNat 11 || c = Char.ofNat 12 || c = '\r'

/-- RE2 character class `\s`, which is `[\t\n\f\r ]`. -/
def isSpaceRe (c : Char) : Bool :=
  c = '\t' || c = '\n' || c = Char.ofNat 12 || c = '\r' || c = ' '

/-- Go `strings.Contains`: `pat` occurs as a contiguous substring of `s`. -/
def containsStr (s pat : Str) : Bool :=
  if pat.isPrefixOf s then true
  else
    match s with
    | [] => false
    | _ :: t => containsStr t pat

/-- Go `strings.Index` (as an index into the character list). -/
def indexOfStr (s pat : Str) : Option Nat :=
  if pat.isPrefixOf s then some 0
  else
    match s with
    | [] => none
    | _ :: t => (indexOfStr t pat).map (· + 1)

/-- Go `strings.Split(s, "\n")`. -/
def splitNl : Str → List Str
  | [] => [[]]
  | c :: t =>
    if c = '\n' then [] :: splitNl t
    else
      match splitNl t with
      | [] => [[c]]
      | l :: ls => (c :: l) :: ls

/-- Go `strings.Join(lines, "\n")`. -/
def joinNl : List Str → Str
  | [] => []
  | [l] => l
  | l :: ls => l ++ '\n' :: joinNl ls

/-- Go `strings.TrimSpace`. -/
def trimSpace (s : Str) : Str :=
  ((s.dropWhile isSpaceGo).reverse.dropWhile isSpaceGo).reverse

/-- Go `strings.ReplaceAll(s, string([p, q]), "")`: delete every
(non-overlapping, leftmost-first) occurrence of the two-character pattern.
All three literal replacements in the sanitizer delete two-character
patterns, so the embedding specializes to that shape. -/
def removeAll2 (p q : Char) : Str → Str
  | [] => []
  | [c] => [c]
  | c :: d :: t =>
    if c = p ∧ d = q then removeAll2 p q t
    else c :: removeAll2 p q (d :: t)

/-! ### A small regex engine

`regexp.ReplaceAllString(re, s, "")` is embedded by a backtracking matcher
over a pattern AST, with Perl preference order (leftmost match start,
greedy stars try longest first, lazy stars shortest first), which is the
semantics of Go's `regexp` package for these patterns. -/

/-- Character classes appearing in the sanitizer's patterns. -/
inductive CC where
  /-- `[^ ...]`: any character not in the list. -/
  | notIn : List Char → CC
  /-- `\s` -/
  | ws : CC
  /-- `.` under `(?s)`: any character. -/
  | anyc : CC
deriving DecidableEq

/-- Whether a character belongs to a class. -/
def CC.mem : CC → Char → Bool
  | .notIn l, c => !l.contains c
  | .ws, c => isSpaceRe c
  | .anyc, _ => true

/-- Pattern ASTs for the sanitizer's regexes. -/
inductive Pat where
  | eps : Pat
  /-- literal string (case-sensitive) -/
  | lit : Str → Pat
  /-- literal string under `(?i)` -/
  | litCI : Str → Pat
  | seq : Pat → Pat → Pat
  | alt : Pat → Pat → Pat
  /-- greedy `C*` over a character class -/
  | starG : CC → Pat
  /-- lazy `C*?` over a character class -/
  | starL : CC → Pat
  /-- greedy `(p)*` over a subpattern -/
  | starSeq : Pat → Pat
deriving DecidableEq

/-- Case-insensitive `List.isPrefixOf`. -/
def ciPrefixOf (p s : Str) : Bool :=
  (p.map toLowerGo).isPrefixOf (s.map toLowerGo |>.take p.length)

/-- Candidate remainders for a greedy class star at `s`: consume the whole
maximal run of class characters first, then backtrack one character at a
time. -/
def gCands (cc : CC) (s : Str) : List Str :=
  let n := (s.takeWhile cc.mem).length
  (List.range (n + 1)).map (fun i => s.drop (n - i))

/-- Candidate remainders for a lazy class star: shortest first. -/
def lCands (cc : CC) (s : Str) : List Str :=
  let n := (s.takeWhile cc.mem).length
  (List.range (n + 1)).map (fun i => s.drop i)

/-- First candidate on which the continuation succeeds. -/
def firstSome : List Str → (Str → Option Str) → Option Str
  | [], _ => none
  | c :: cs, k => match k c with
    | some r => some r
    | none => firstSome cs k

/-- Backtracking matcher: try to match `p` at the start of `s`, calling the
continuation on the remainder; candidate orders give Perl preference. The
fuel (structural, so the kernel can evaluate the matcher) decreases on each
subpattern step and on each starred-group iteration; callers pass fuel
exceeding the pattern's nesting depth plus the input's length, which the
fuel consumption never reaches, so the fuel-out `none` is unreachable. -/
def matchP : Nat → Pat → Str → (Str → Option Str) → Option Str
  | 0, _, _, _ => none
  | _ + 1, .eps, s, k => k s
  | _ + 1, .lit l, s, k => if l.isPrefixOf s then k (s.drop l.length) else none
  | _ + 1, .litCI l, s, k =>
      if l.length ≤ s.length ∧ ciPrefixOf l s then k (s.drop l.length) else none
  | f + 1, .seq p q, s, k => matchP f p s (fun s1 => matchP f q s1 k)
  | f + 1, .alt p q, s, k => match matchP f p s k with
      | some r => some r
      | none => matchP f q s k
  | _ + 1, .starG cc, s, k => firstSome (gCands cc s) k
  | _ + 1, .starL cc, s, k => firstSome (lCands cc s) k
  | f + 1, .starSeq p, s, k =>
      match matchP f p s (fun s1 =>
          if s1.length < s.length then matchP f (.starSeq p) s1 k else none) with
      | some r => some r
      | none => k s

/-- The fuelled scan of `replaceAllP`: the fuel (again structural for the
kernel's sake) exceeds the number of scan steps, each of which consumes at
least one character. -/
def replaceAllG (p : Pat) : Nat → Str → Str
  | 0, s => s
  | _ + 1, [] => []
  | f + 1, c :: t =>
    match matchP ((c :: t).length + 100) p (c :: t) some with
    | some rest =>
      if rest.length < (c :: t).length then replaceAllG p f rest
      else c :: t
    | none => c :: replaceAllG p f t

/-- `regexp.ReplaceAllString(re, s, "")`: scan left to right, deleting each
leftmost match and resuming after it. The embedded patterns never match the
empty string, so a non-shrinking match (kept only for totality) stops the
scan. -/
def replaceAllP (p : Pat) (s : Str) : Str := replaceAllG p (s.length + 1) s

/-! ### The sanitizer's patterns

Each definition transcribes one compiled pattern from the debate package's
variable block, in the order the source declares them. -/

/-- Right-nested sequencing of a pattern list. -/
def seqs (ps : List Pat) : Pat := ps.foldr Pat.seq .eps

/-- Case-sensitive literal pattern. -/
def litS (s : String) : Pat := .lit s.toList

/-- The characters of a double-quoted literal: `"body"`. -/
def quoted (body : String) : Str := '"' :: body.toList ++ ['"']

/-- Go pattern: a `<thinking ...>` tag, lazily up to `</thinking>`, with
`(?s)` so `.` spans newlines. -/
def thinkingBlockPat : Pat :=
  seqs [litS "<thinking", .starG (.notIn ['>']), .lit ['>'],
        .starL .anyc, litS "</thinking>"]

/-- Go pattern: an `<antThinking ...>` block. -/
def antThinkingBlockPat : Pat :=
  seqs [litS "<antThinking", .starG (.notIn ['>']), .lit ['>'],
        .starL .anyc, litS "</antThinking>"]

/-- Go pattern: a `<signature ...>` block. -/
def signatureBlockPat : Pat :=
  seqs [litS "<signature", .starG (.notIn ['>']), .lit ['>'],
        .starL .anyc, litS "</signature>"]

/-- Go pattern: a signature attribute, `\s*signature\s*=\s*"[^"]*"`. -/
def signatureAttrPat : Pat :=
  seqs [.starG .ws, litS "signature", .starG .ws, .lit ['='], .starG .ws,
        .lit ['"'], .starG (.notIn ['"']), .lit ['"']]

/-- Go pattern: a brace-free JSON object with a `"type":"thinking"` field. -/
def jsonThinkingPat : Pat :=
  seqs [.lit ['{'], .starG (.notIn ['{', '}']), .lit (quoted "type"),
        .starG .ws, .lit [':'], .starG .ws, .lit (quoted "thinking"),
        .starG (.notIn ['{', '}']), .lit ['}']]

/-- Go pattern: any opening or closing thinking tag, `(?i)</?thinking[^>]*>`. -/
def anyThinkingTagPat : Pat :=
  seqs [.lit ['<'], .alt (.lit ['/']) .eps, .litCI "thinking".toList,
        .starG (.notIn ['>']), .lit ['>']]

/-- Go pattern: a signature JSON field, `(?i)"signature"\s*:\s*"[^"]*"`. -/
def anySignaturePat : Pat :=
  seqs [.lit ['"'], .litCI "signature".toList, .lit ['"'], .starG .ws,
        .lit [':'], .starG .ws, .lit ['"'], .starG (.notIn ['"']), .lit ['"']]

/-- Go pattern: a bracketed array holding a `"type":"thinking"` object. -/
def thinkingContentPat : Pat :=
  seqs [.lit ['['], .starG .ws, .lit ['{'], .starG (.notIn [']']),
        .lit (quoted "type"), .starG .ws, .lit [':'], .starG .ws,
        .lit (quoted "thinking"), .starG (.notIn [']']), .lit ['}'],
        .starG .ws, .lit [']']]

/-- Go pattern: an array of content blocks whose first object is of type
`thinking` or `text`, followed by further objects. -/
def contentArrayPat : Pat :=
  seqs [.lit ['['], .starG .ws, .lit ['{'], .starG (.notIn [']']),
        .lit (quoted "type"), .starG .ws, .lit [':'], .starG .ws, .lit ['"'],
        .alt (litS "thinking") (litS "text"), .lit ['"'],
        .starG (.notIn [']']), .lit ['}'], .starG .ws,
        .starSeq (seqs [.lit [','], .starG .ws, .lit ['{'],
                        .starG (.notIn [']']), .lit ['}'], .starG .ws]),
        .lit [']']]

/-- The source's unbounded `for` loop deleting `[thinking]...[/thinking]`
spans via `strings.Index`. (When `[/thinking]` occurs well before
`[thinking]` the Go loop re-grows the string forever; the fuel, chosen
larger than any shrinking run needs, makes the embedding total.) -/
def bracketThinkingLoop : Nat → Str → Str
  | 0, r => r
  | f + 1, r =>
    match indexOfStr r ("[thinking]".toList) with
    | none => r
    | some start =>
      match indexOfStr r ("[/thinking]".toList) with
      | none => r.take start
      | some e =>
        bracketThinkingLoop f (r.take start ++ r.drop (e + "[/thinking]".length))

/-- The per-line filter of the sanitizer: drop residue lines and lines that
still carry a thinking/signature marker. -/
def keepLine (line : Str) : Bool :=
  let trimmed := trimSpace line
  let lowerTrimmed := trimmed.map toLowerGo
  if trimmed = [] ∨ trimmed = [','] ∨ trimmed = ['{'] ∨ trimmed = ['}'] ∨
      trimmed = ['['] ∨ trimmed = [']'] then false
  else if containsStr lowerTrimmed ("thinking".toList) ∨
      containsStr lowerTrimmed ("signature".toList) ∨
      (quoted "type").isPrefixOf trimmed ∨
      ('{' :: quoted "type").isPrefixOf trimmed ∨
      ('[' :: '{' :: quoted "type").isPrefixOf trimmed then false
  else true

/-- `cleanMessageContent` from the debate package: the regex cascade, the
bracket-span loop, the line filter, and the final artifact collapse. -/
def cleanMessageContent (content : Str) : Str :=
  if content = [] then []
  else
    let r := replaceAllP thinkingBlockPat content
    let r := replaceAllP antThinkingBlockPat r
    let r := replaceAllP signatureBlockPat r
    let r := replaceAllP signatureAttrPat r
    let r := replaceAllP jsonThinkingPat r
    let r := replaceAllP anyThinkingTagPat r
    let r := replaceAllP anySignaturePat r
    let r := replaceAllP thinkingContentPat r
    let r := replaceAllP contentArrayPat r
    let r := bracketThinkingLoop (r.length + 1) r
    let cleanLines := (splitNl r).filter keepLine
    let r := trimSpace (joinNl cleanLines)
    let r := removeAll2 '"' '"' r
    let r := removeAll2 '{' '}' r
    let r := removeAll2 '[' ']' r
    trimSpace r

/-! ### Provider layer -/

/-- A Go `error` value as the embedded code inspects it: either the
`context.Canceled` sentinel or some other error rendered as its message. -/
inductive GoErr where
  | canceled : GoErr
  | errMsg : Str → GoErr
deriving DecidableEq

/-- `err.Error()`: the message string of a Go error
(`context.Canceled.Error()` is `"context canceled"`). -/
def GoErr.render : GoErr → Str
  | .canceled => "context canceled".toList
  | .errMsg m => m

/-- The Manager's cancellation test:
`chunk.Error == context.Canceled || strings.Contains(chunk.Error.Error(), "context canceled")`. -/
def isCancelErr (e : GoErr) : Bool :=
  e = .canceled || containsStr e.render ("context canceled".toList)

/-- `provider.StreamChunk`. -/
structure StreamChunk where
  content : Str := []
  done : Bool := false
  error : Option GoErr := none
deriving DecidableEq

/-- `provider.Options`. Numeric sampling options keep Go's `float64` zero
comparisons; since the embedded code only compares them with `0` and copies
them (no arithmetic), they are modelled as exact rationals. -/
structure Options where
  model : String := ""
  maxTokens : Int := 0
  temperature : Rat := 0
  topP : Rat := 0
  topK : Int := 0
  frequencyPenalty : Rat := 0
  presencePenalty : Rat := 0
deriving DecidableEq

/-! ### The OpenAI adapter's delta filter

`OpenAI.Chat` decodes `data:` frames and, for each nonempty delta content,
drops any fragment that looks like leaked thinking/signature material
before emitting it as a chunk. -/

/-- The skip condition applied to a delta's content (`lowerContent` is
`strings.ToLower(content)` in the source). -/
def openAISkipDelta (content : Str) : Bool :=
  let lowerContent := content.map toLowerGo
  containsStr lowerContent ("thinking".toList) ||
  containsStr lowerContent ("signature".toList) ||
  (("<".toList).isPrefixOf content && containsStr content (">".toList) &&
    containsStr lowerContent ("think".toList))

/-- The chunk events `OpenAI.Chat` emits for a sequence of upstream delta
contents: one chunk per nonempty delta that survives the filter. -/
def openAIEmitDeltas : List Str → List StreamChunk
  | [] => []
  | c :: rest =>
    if c ≠ [] ∧ ¬ openAISkipDelta c then
      { content := c } :: openAIEmitDeltas rest
    else openAIEmitDeltas rest

/-! ### The Anthropic adapter's content-block tracking -/

/-- The upstream SSE events `Anthropic.Chat` decodes (fields of
`anthropicStreamEvent` that each case reads). `otherEvent` stands for any
event type the `switch` ignores, such as `message_start` or `ping`. -/
inductive AnthEvent where
  | contentBlockStart : Int → String → AnthEvent
  | contentBlockStop : Int → AnthEvent
  | contentBlockDelta : Int → Str → AnthEvent
  | messageStop : AnthEvent
  | otherEvent : AnthEvent
deriving DecidableEq

/-- The streaming loop of `Anthropic.Chat`: `thinking` tracks
`isThinkingBlock`, `cur` tracks `currentBlockIndex`; running out of events
is the upstream EOF, which also sends `Done`. -/
def anthProcess : List AnthEvent → Bool → Int → List StreamChunk
  | [], _, _ => [{ done := true }]
  | e :: rest, thinking, cur =>
    match e with
    | .contentBlockStart i t => anthProcess rest (t == "thinking") i
    | .contentBlockStop i =>
      anthProcess rest (if i = cur then false else thinking) cur
    | .contentBlockDelta _ txt =>
      if ¬ thinking ∧ txt ≠ [] then
        { content := txt } :: anthProcess rest thinking cur
      else anthProcess rest thinking cur
    | .messageStop => [{ done := true }]
    | .otherEvent => anthProcess rest thinking cur

/-- The chunk stream produced by `Anthropic.Chat` for a decoded event
sequence (initial state: not in a thinking block, block index `-1`). -/
def anthChatEvents (evs : List AnthEvent) : List StreamChunk :=
  anthProcess evs false (-1)

/-! ### Agent -/

/-- `agent.Agent` (the provider value itself is the chat oracle of the
Manager model, so only the configuration fields appear). -/
structure Agent where
  id : String := ""
  name : String := ""
  role : String := ""
  systemPrompt : String := ""
  providerType : String := ""
  model : String := ""
  color : String := ""
  temperature : Rat := 0
  maxTokens : Int := 0
  topP : Rat := 0
  topK : Int := 0
  frequencyPenalty : Rat := 0
  presencePenalty : Rat := 0
deriving DecidableEq

/-- `if opts.Model == "" { opts.Model = a.Model }` in `Agent.Chat`. -/
def mergeModel (a : Agent) (o : Options) : Options :=
  if o.model = "" then { o with model := a.model } else o

/-- `if opts.Temperature == 0 && a.Temperature > 0 { ... }` in `Agent.Chat`. -/
def mergeTemperature (a : Agent) (o : Options) : Options :=
  if o.temperature = 0 ∧ a.temperature > 0 then
    { o with temperature := a.temperature } else o

/-- `if opts.MaxTokens == 0 && a.MaxTokens > 0 { ... }` in `Agent.Chat`. -/
def mergeMaxTokens (a : Agent) (o : Options) : Options :=
  if o.maxTokens = 0 ∧ a.maxTokens > 0 then
    { o with maxTokens := a.maxTokens } else o

/-- `if opts.TopP == 0 && a.TopP > 0 { ... }` in `Agent.Chat`. -/
def mergeTopP (a : Agent) (o : Options) : Options :=
  if o.topP = 0 ∧ a.topP > 0 then { o with topP := a.topP } else o

/-- `if opts.TopK == 0 && a.TopK > 0 { ... }` in `Agent.Chat`. -/
def mergeTopK (a : Agent) (o : Options) : Options :=
  if o.topK = 0 ∧ a.topK > 0 then { o with topK := a.topK } else o

/-- `if opts.FrequencyPenalty == 0 && a.FrequencyPenalty != 0 { ... }`. -/
def mergeFrequencyPenalty (a : Agent) (o : Options) : Options :=
  if o.frequencyPenalty = 0 ∧ a.frequencyPenalty ≠ 0 then
    { o with frequencyPenalty := a.frequencyPenalty } else o

/-- `if opts.PresencePenalty == 0 && a.PresencePenalty != 0 { ... }`. -/
def mergePresencePenalty (a : Agent) (o : Options) : Options :=
  if o.presencePenalty = 0 ∧ a.presencePenalty ≠ 0 then
    { o with presencePenalty := a.presencePenalty } else o

/-- The option merge of `Agent.Chat`: the source's sequence of
field-mutating `if` statements, applied in source order. -/
def Agent.chatOpts (a : Agent) (opts : Options) : Options :=
  mergePresencePenalty a (mergeFrequencyPenalty a (mergeTopK a (mergeTopP a
    (mergeMaxTokens a (mergeTemperature a (mergeModel a opts))))))

/-! ### Debate Manager

The mutex-guarded `debate.Manager` is embedded as a state record; every
method becomes a pure state transformer. A turn's network call
(`currentAgent.Chat`) is an oracle parameter: either the immediate error
`Agent.Chat`/the adapter returns before streaming starts, or the list of
chunks the channel delivers. Wall-clock timestamps are omitted. -/

/-- `debate.Mode`. -/
inductive Mode where
  | roundRobin : Mode
  | freeForm : Mode
deriving DecidableEq

/-- `debate.Message` (without the timestamp). -/
structure Message where
  id : String
  agentId : String
  agentName : String
  content : Str
  color : String
deriving DecidableEq

/-- `debate.StreamMessage`: the wire event. The `type` field is one of
`"start"`, `"chunk"`, `"end"`, `"error"`. -/
structure StreamMessage where
  type : String
  agentId : String := ""
  agentName : String := ""
  content : Str := []
  messageId : String := ""
  color : String := ""
  error : Str := []
deriving DecidableEq

/-- The errors the Manager's methods return. -/
inductive TErr where
  | alreadyRunning : TErr
  | notRunning : TErr
  | turnInProgress : TErr
  | noAgents : TErr
  | agentNotFound : String → TErr
  | chatError : Str → TErr
  | chunkError : GoErr → TErr
deriving DecidableEq

/-- `debate.Manager`'s state. The `context.Context`/`CancelFunc` pair is
modelled by `hasCtx` (handle allocated) and `ctxCanceled`. -/
structure Manager where
  agents : List Agent
  messages : List Message := []
  topic : String := ""
  mode : Mode := .roundRobin
  currentIndex : Nat := 0
  isRunning : Bool := false
  isTurnInProgress : Bool := false
  hasCtx : Bool := false
  ctxCanceled : Bool := false
  msgCounter : Nat := 0
deriving DecidableEq

/-- `NewManager`. -/
def Manager.new (agents : List Agent) : Manager :=
  { agents := agents, mode := .roundRobin }

/-- `Manager.SetMode`. -/
def Manager.setMode (m : Manager) (mode : Mode) : Manager :=
  { m with mode := mode }

/-- `Manager.Start`. -/
def Manager.start (m : Manager) (topic : String) : Except TErr Manager :=
  if m.isRunning then .error .alreadyRunning
  else .ok { m with
    topic := topic
    messages := []
    currentIndex := 0
    isRunning := true
    hasCtx := true
    ctxCanceled := false }

/-- `Manager.Continue`: keep history, optionally append a system separator
message, set the new topic and a fresh cancellation scope. -/
def Manager.continueTopic (m : Manager) (newTopic : String) : Manager :=
  let m := if m.messages ≠ [] then
    { m with
      msgCounter := m.msgCounter + 1
      messages := m.messages ++ [{
        id := "msg_" ++ toString (m.msgCounter + 1)
        agentId := "system"
        agentName := "Hệ thống"
        content := ("--- Chuyển sang chủ đề mới: " ++ newTopic ++ " ---").toList
        color := "#888888" }] }
  else m
  { m with topic := newTopic, isRunning := true, hasCtx := true, ctxCanceled := false }

/-- `Manager.Stop`: cancel the scope if one exists and clear the running
flag (the turn-in-progress flag is left untouched). -/
def Manager.stop (m : Manager) : Manager :=
  { m with ctxCanceled := m.hasCtx || m.ctxCanceled, isRunning := false }

/-- `Manager.Reset`. -/
def Manager.reset (m : Manager) : Manager :=
  { m with
    ctxCanceled := m.hasCtx || m.ctxCanceled
    messages := []
    topic := ""
    isRunning := false
    currentIndex := 0
    msgCounter := 0 }

/-- The `for i, a := range m.agents` loop of `selectNextAgent`, returning
the first agent whose ID differs from the last speaker, with its index. -/
def findOther (lastSpeaker : String) : List Agent → Nat → Option (Nat × Agent)
  | [], _ => none
  | a :: rest, i =>
    if a.id ≠ lastSpeaker then some (i, a)
    else findOther lastSpeaker rest (i + 1)

/-- A zero agent for the `getD` renderings of Go's panicking list indexing
(all reachable calls index within bounds). -/
def defaultAgent : Agent := {}

/-- `Manager.selectNextAgent` (free-form selection; also updates
`currentIndex` as the source does). -/
def Manager.selectNextAgent (m : Manager) : Agent × Manager :=
  match m.messages.getLast? with
  | none => (m.agents.getD 0 defaultAgent, m)
  | some lastMsg =>
    match findOther lastMsg.agentId m.agents 0 with
    | some (i, a) => (a, { m with currentIndex := i })
    | none =>
      let j := (m.currentIndex + 1) % m.agents.length
      (m.agents.getD j defaultAgent, { m with currentIndex := j })

/-- The locked head of `Manager.NextTurn`: the three guard checks, setting
the turn-in-progress flag, and speaker selection. -/
def Manager.nextTurnBegin (m : Manager) : Except TErr (Manager × Agent) :=
  if ¬ m.isRunning then .error .notRunning
  else if m.isTurnInProgress then .error .turnInProgress
  else if m.agents.length = 0 then .error .noAgents
  else
    let m := { m with isTurnInProgress := true }
    if m.mode = .roundRobin then
      let a := m.agents.getD m.currentIndex defaultAgent
      .ok ({ m with currentIndex := (m.currentIndex + 1) % m.agents.length }, a)
    else
      let (a, m) := m.selectNextAgent
      .ok (m, a)

/-- The locked head of `Manager.TurnByAgent`: guards, agent lookup by ID,
then setting the turn-in-progress flag (no cursor update). -/
def Manager.turnByAgentBegin (m : Manager) (agentID : String) :
    Except TErr (Manager × Agent) :=
  if ¬ m.isRunning then .error .notRunning
  else if m.isTurnInProgress then .error .turnInProgress
  else if m.agents.length = 0 then .error .noAgents
  else
    match m.agents.find? (fun a => a.id = agentID) with
    | none => .error (.agentNotFound agentID)
    | some a => .ok ({ m with isTurnInProgress := true }, a)

/-- Storing a finished turn: sanitize the accumulated text, append the
Message, clear the flag, emit `end`. -/
def Manager.finalizeTurn (m : Manager) (a : Agent) (msgId : String)
    (evs : List StreamMessage) (acc : Str) :
    Manager × List StreamMessage × Except TErr Unit :=
  let cleaned := cleanMessageContent acc
  ({ m with
      messages := m.messages ++ [{
        id := msgId
        agentId := a.id
        agentName := a.name
        content := cleaned
        color := a.color }]
      isTurnInProgress := false },
   evs ++ [{ type := "end", agentId := a.id, messageId := msgId }],
   .ok ())

/-- The `for chunk := range respCh` loop shared by `NextTurn` and
`TurnByAgent`: cancellation ends the turn gracefully, an upstream error
terminates it with an `error` event (clearing the flag in both cases),
content is re-streamed and accumulated, and `Done` or channel exhaustion
leads to storing the message. -/
def Manager.runChunks (m : Manager) (a : Agent) (msgId : String)
    (chunks : List StreamChunk) (evs : List StreamMessage) (acc : Str) :
    Manager × List StreamMessage × Except TErr Unit :=
  match chunks with
  | [] => m.finalizeTurn a msgId evs acc
  | c :: rest =>
    match c.error with
    | some e =>
      if isCancelErr e then
        ({ m with isTurnInProgress := false },
         evs ++ [{ type := "end", agentId := a.id, messageId := msgId }],
         .ok ())
      else
        ({ m with isTurnInProgress := false },
         evs ++ [{ type := "error", error := e.render }],
         .error (.chunkError e))
    | none =>
      let evs := if c.content ≠ [] then
        evs ++ [{ type := "chunk", agentId := a.id, content := c.content,
                  messageId := msgId }]
      else evs
      let acc := if c.content ≠ [] then acc ++ c.content else acc
      if c.done then m.finalizeTurn a msgId evs acc
      else m.runChunks a msgId rest evs acc

/-- The body shared by both turn methods after speaker resolution: message
ID allocation, the `start` event, the adapter call (its outcome supplied by
the `chatResult` oracle), and the streaming loop. When the adapter call
itself fails the source emits an `error` event and returns WITHOUT clearing
`isTurnInProgress`; the embedding reproduces that. -/
def Manager.turnBody (m : Manager) (a : Agent)
    (chatResult : Except Str (List StreamChunk)) :
    Manager × List StreamMessage × Except TErr Unit :=
  let m := { m with msgCounter := m.msgCounter + 1 }
  let msgId := "msg_" ++ toString m.msgCounter
  let startEv : StreamMessage :=
    { type := "start", agentId := a.id, agentName := a.name,
      messageId := msgId, color := a.color }
  match chatResult with
  | .error emsg =>
    (m, [startEv, { type := "error", error := emsg }], .error (.chatError emsg))
  | .ok chunks => m.runChunks a msgId chunks [startEv] []

/-- `Manager.NextTurn` with the adapter call's outcome as an oracle. -/
def Manager.nextTurn (m : Manager)
    (chatResult : Except Str (List StreamChunk)) :
    Manager × List StreamMessage × Except TErr Unit :=
  match m.nextTurnBegin with
  | .error e => (m, [], .error e)
  | .ok (m1, a) => m1.turnBody a chatResult

/-- `Manager.TurnByAgent` with the adapter call's outcome as an oracle. -/
def Manager.turnByAgent (m : Manager) (agentID : String)
    (chatResult : Except Str (List StreamChunk)) :
    Manager × List StreamMessage × Except TErr Unit :=
  match m.turnByAgentBegin agentID with
  | .error e => (m, [], .error e)
  | .ok (m1, a) => m1.turnBody a chatResult

/-- The agent id carried by the first event of a turn (its `start` event). -/
def firstAgentId (evs : List StreamMessage) : String :=
  match evs.head? with
  | some e => e.agentId
  | none => ""

/-- Drive a sequence of `nextTurn` calls, one chunk-list oracle per call,
collecting each turn's speaker; stop at the first failed call. -/
def Manager.runTurns (m : Manager) : List (List StreamChunk) → List String
  | [] => []
  | cs :: rest =>
    match m.nextTurn (.ok cs) with
    | (m1, evs, .ok _) => firstAgentId evs :: m1.runTurns rest
    | (_, _, .error _) => []

/-! ### Concrete fixtures used by witnesses and counterexamples -/

instance {ε α : Type} [DecidableEq ε] [DecidableEq α] : DecidableEq (Except ε α) :=
  fun x y =>
    match x, y with
    | .ok a, .ok b =>
      if h : a = b then .isTrue (h ▸ rfl) else .isFalse (fun hc => h (Except.ok.inj hc))
    | .error a, .error b =>
      if h : a = b then .isTrue (h ▸ rfl) else .isFalse (fun hc => h (Except.error.inj hc))
    | .ok _, .error _ => .isFalse (fun hc => Except.noConfusion hc)
    | .error _, .ok _ => .isFalse (fun hc => Except.noConfusion hc)

/-- A two-agent roster member. -/
def cexAgentA : Agent := { id := "a", name := "A", color := "#1" }

/-- A two-agent roster member. -/
def cexAgentB : Agent := { id := "b", name := "B", color := "#2" }

/-- A freshly started round-robin session over the two-agent roster. -/
def startedRR : Manager :=
  match (Manager.new [cexAgentA, cexAgentB]).start "t" with
  | .ok m => m
  | .error _ => Manager.new []

/-- The session state reached by starting a debate, entering a turn (the
locked head of `NextTurn` runs, setting the turn-in-progress flag), and
then calling `Stop` while the turn's streaming is still underway. -/
def c1Stopped : Manager :=
  match startedRR.nextTurnBegin with
  | .ok (m2, _) => m2.stop
  | .error _ => Manager.new []

/-- A full `NextTurn` call whose adapter call fails to start (as when the
agent's provider is not initialized). -/
def c3Run : Manager × List StreamMessage × Except TErr Unit :=
  startedRR.nextTurn (.error ("provider not initialized".toList))

/-- Start, run one complete turn, stop: a state with a nonzero message
counter on which `start` can be called again. -/
def c6After : Manager :=
  ((startedRR.nextTurn (.ok [{ done := true }])).1).stop

/-- A freshly started free-form session over the two-agent roster. -/
def startedFF : Manager :=
  match ((Manager.new [cexAgentA, cexAgentB]).setMode .freeForm).start "t" with
  | .ok m => m
  | .error _ => Manager.new []

/-- Free-form session: one completed turn, then a topic change via
`Continue` (which appends a system separator message). -/
def c8AfterContinue : Manager :=
  ((startedFF.nextTurn (.ok [{ content := ['x'], done := true }])).1).continueTopic "t2"

/-- The input on which the sanitizer is not idempotent: the final
`strings.ReplaceAll(result, "{}", "")` splices the two fragments into the
marker word itself. -/
def c2X : Str := ['t', 'h', 'i', 'n', '{', '}', 'k', 'i', 'n', 'g']

/-! ### Claim C4: the option merge -/

/-- Record form of the model merge step. -/
theorem mergeModel_eq (a : Agent) (o : Options) :
    mergeModel a o = { o with model := if o.model = "" then a.model else o.model } := by
  unfold mergeModel; split_ifs <;> rfl

/-- Record form of the temperature merge step. -/
theorem mergeTemperature_eq (a : Agent) (o : Options) :
    mergeTemperature a o = { o with temperature :=
      if o.temperature = 0 ∧ 0 < a.temperature then a.temperature else o.temperature } := by
  unfold mergeTemperature; split_ifs <;> rfl

/-- Record form of the max-tokens merge step. -/
theorem mergeMaxTokens_eq (a : Agent) (o : Options) :
    mergeMaxTokens a o = { o with maxTokens :=
      if o.maxTokens = 0 ∧ 0 < a.maxTokens then a.maxTokens else o.maxTokens } := by
  unfold mergeMaxTokens; split_ifs <;> rfl

/-- Record form of the top-p merge step. -/
theorem mergeTopP_eq (a : Agent) (o : Options) :
    mergeTopP a o = { o with topP :=
      if o.topP = 0 ∧ 0 < a.topP then a.topP else o.topP } := by
  unfold mergeTopP; split_ifs <;> rfl

/-- Record form of the top-k merge step. -/
theorem mergeTopK_eq (a : Agent) (o : Options) :
    mergeTopK a o = { o with topK :=
      if o.topK = 0 ∧ 0 < a.topK then a.topK else o.topK } := by
  unfold mergeTopK; split_ifs <;> rfl

/-- Record form of the frequency-penalty merge step. -/
theorem mergeFrequencyPenalty_eq (a : Agent) (o : Options) :
    mergeFrequencyPenalty a o = { o with frequencyPenalty :=
      if o.frequencyPenalty = 0 ∧ a.frequencyPenalty ≠ 0 then a.frequencyPenalty
      else o.frequencyPenalty } := by
  unfold mergeFrequencyPenalty; split_ifs <;> rfl

/-- Record form of the presence-penalty merge step. -/
theorem mergePresencePenalty_eq (a : Agent) (o : Options) :
    mergePresencePenalty a o = { o with presencePenalty :=
      if o.presencePenalty = 0 ∧ a.presencePenalty ≠ 0 then a.presencePenalty
      else o.presencePenalty } := by
  unfold mergePresencePenalty; split_ifs <;> rfl

/-- C4, counterexample: the claim says a per-call temperature deliberately
set to 0 is not overridden by the agent's configured nonzero default; in
the source the merge tests the numeric zero value, so the agent default
(here 2) replaces the explicit per-call 0. -/
theorem c4_counterexample :
    (({ id := "x", temperature := 2 } : Agent).chatOpts
      { temperature := 0 }).temperature = 2 ∧ (2 : Rat) ≠ 0 := by decide

/-- C4 (amended): per-call options use Go zero values as "unset": a nonzero
(non-empty) per-call option wins over the agent's default, while a per-call
option equal to the zero value falls back to the agent's configured default
whenever that default passes the source's guard (positive, or merely
nonzero for the penalties). There is no unset sentinel, so a deliberate
per-call 0 is overridden by a nonzero agent default. -/
theorem c4_option_merge (a : Agent) (opts : Options) :
    ((a.chatOpts opts).model = if opts.model = "" then a.model else opts.model) ∧
    ((a.chatOpts opts).temperature =
      if opts.temperature = 0 ∧ 0 < a.temperature then a.temperature
      else opts.temperature) ∧
    ((a.chatOpts opts).maxTokens =
      if opts.maxTokens = 0 ∧ 0 < a.maxTokens then a.maxTokens
      else opts.maxTokens) ∧
    ((a.chatOpts opts).topP =
      if opts.topP = 0 ∧ 0 < a.topP then a.topP else opts.topP) ∧
    ((a.chatOpts opts).topK =
      if opts.topK = 0 ∧ 0 < a.topK then a.topK else opts.topK) ∧
    ((a.chatOpts opts).frequencyPenalty =
      if opts.frequencyPenalty = 0 ∧ a.frequencyPenalty ≠ 0 then a.frequencyPenalty
      else opts.frequencyPenalty) ∧
    ((a.chatOpts opts).presencePenalty =
      if opts.presencePenalty = 0 ∧ a.presencePenalty ≠ 0 then a.presencePenalty
      else opts.presencePenalty) := by
  simp [Agent.chatOpts, mergeModel_eq, mergeTemperature_eq, mergeMaxTokens_eq,
    mergeTopP_eq, mergeTopK_eq, mergeFrequencyPenalty_eq, mergePresencePenalty_eq]

/-! ### Claim C6: start -/

/-- C6, counterexample: after one completed turn and a stop, `start`
succeeds but leaves the message counter at 1; the claim says `start`
resets it. -/
theorem c6_counterexample :
    c6After.isRunning = false ∧ c6After.msgCounter = 1 ∧
    (c6After.start "t2").toOption.map Manager.msgCounter = some 1 := by decide

/-- C6 (amended): `start(topic)` fails with AlreadyRunning when a debate is
already running; otherwise it clears the message log, resets the
round-robin cursor, allocates a fresh cancellation scope and transitions
the session to Running — but it does not reset the message counter, which
only `reset()` zeroes. -/
theorem c6_start_spec (m : Manager) (t : String) :
    (m.isRunning = false →
      m.start t = .ok { m with
        topic := t, messages := [], currentIndex := 0,
        isRunning := true, hasCtx := true, ctxCanceled := false }) ∧
    (m.isRunning = true → m.start t = .error .alreadyRunning) := by
  constructor <;> intro h <;> simp [Manager.start, h]

/-- C6, witness: the amended start specification evaluated on a concrete
idle manager. -/
theorem c6_start_spec_witness :
    (Manager.new [cexAgentA]).start "t" = .ok { Manager.new [cexAgentA] with
      topic := "t", messages := [], currentIndex := 0,
      isRunning := true, hasCtx := true, ctxCanceled := false } :=
  (c6_start_spec (Manager.new [cexAgentA]) "t").1 rfl

/-! ### Claim C1: turn mutual exclusion -/

/-- C1, counterexample: with the turn-in-progress flag set a racing call
does fail — but when `Stop` ran while the turn was executing, the failure
is NotRunning rather than the TurnInProgress error the claim promises for
every such state. -/
theorem c1_counterexample :
    c1Stopped.isTurnInProgress = true ∧
    c1Stopped.nextTurnBegin = .error .notRunning ∧
    c1Stopped.turnByAgentBegin "a" = .error .notRunning ∧
    TErr.notRunning ≠ TErr.turnInProgress := by decide

/-- C1 (amended): while the turn-in-progress flag is set, no `nextTurn` or
`turnByAgent` call succeeds in starting a turn and the session state is
left unchanged — the caller gets TurnInProgress when the session is still
running, and NotRunning when the session was stopped while the turn
executes — so no two turns are ever in flight concurrently. -/
theorem c1_turn_mutual_exclusion (m : Manager) (aid : String)
    (chatResult : Except Str (List StreamChunk))
    (h : m.isTurnInProgress = true) :
    m.nextTurn chatResult =
      (m, [], .error (if m.isRunning then .turnInProgress else .notRunning)) ∧
    m.turnByAgent aid chatResult =
      (m, [], .error (if m.isRunning then .turnInProgress else .notRunning)) := by
  cases hr : m.isRunning <;>
    simp [Manager.nextTurn, Manager.turnByAgent, Manager.nextTurnBegin,
      Manager.turnByAgentBegin, h, hr]

/-- C1, witness: the amended exclusion applied to a concrete running
session with the flag set, and to the concrete stopped-mid-turn state. -/
theorem c1_turn_mutual_exclusion_witness :
    ({ Manager.new [cexAgentA] with isRunning := true, isTurnInProgress := true }
        : Manager).nextTurn (.ok []) =
      ({ Manager.new [cexAgentA] with isRunning := true, isTurnInProgress := true },
       [], .error .turnInProgress) ∧
    c1Stopped.turnByAgent "a" (.ok []) = (c1Stopped, [], .error .notRunning) := by
  constructor
  · have h := c1_turn_mutual_exclusion
      { Manager.new [cexAgentA] with isRunning := true, isTurnInProgress := true }
      "a" (.ok []) rfl
    simpa using h.1
  · have h := c1_turn_mutual_exclusion c1Stopped "a" (.ok []) (by decide)
    have hr : c1Stopped.isRunning = false := by decide
    simpa [hr] using h.2

/-! ### Claim C3: error propagation out of a turn -/

/-- C3: when the adapter call fails to start, the source emits the `error`
event and returns without clearing `isTurnInProgress` (unlike the
mid-stream error path, which does clear it); the session stays Running but
every following `nextTurn`/`turnByAgent` call is rejected with
TurnInProgress, so the user cannot retry as the claim (and §7 of the spec)
promises. Nothing except a completed turn ever clears the flag. -/
theorem c3_flag_leak_on_chat_error :
    c3Run.1.isRunning = true ∧
    c3Run.1.isTurnInProgress = true ∧
    c3Run.2.2 = .error (.chatError ("provider not initialized".toList)) ∧
    c3Run.2.1.map StreamMessage.type = ["start", "error"] ∧
    c3Run.1.nextTurn (.ok [{ done := true }]) = (c3Run.1, [], .error .turnInProgress) ∧
    c3Run.1.turnByAgent "a" (.ok [{ done := true }]) =
      (c3Run.1, [], .error .turnInProgress) := by decide

/-! ### Claim C9: the Anthropic adapter suppresses thinking blocks -/

/-- While inside a thinking block, every delta is dropped. -/
theorem anth_drop_thinking (i cur : Int) (ts : List Str) (rest : List AnthEvent) :
    anthProcess (ts.map (AnthEvent.contentBlockDelta i) ++ rest) true cur =
    anthProcess rest true cur := by
  induction ts with
  | nil => rfl
  | cons u us ih => simpa [anthProcess] using ih

/-- Outside a thinking block, every nonempty delta becomes a chunk. -/
theorem anth_emit_text (i cur : Int) (us : List Str) (rest : List AnthEvent)
    (h : ∀ u ∈ us, u ≠ []) :
    anthProcess (us.map (AnthEvent.contentBlockDelta i) ++ rest) false cur =
    us.map (fun u => ({ content := u } : StreamChunk)) ++ anthProcess rest false cur := by
  induction us with
  | nil => rfl
  | cons u us ih =>
    have hu : u ≠ [] := h u (by simp)
    simp [anthProcess, hu, ih (fun v hv => h v (List.mem_cons_of_mem _ hv))]

/-- C9: for an upstream sequence of one thinking block followed by one text
block and `message_stop`, the adapter emits chunks exactly for the text
block's deltas (every thinking delta is suppressed) followed by a single
`Done` sentinel and nothing further. -/
theorem c9_anthropic_thinking_suppressed (ts us : List Str)
    (hus : ∀ u ∈ us, u ≠ []) :
    anthChatEvents
      (AnthEvent.contentBlockStart 0 "thinking" ::
        (ts.map (AnthEvent.contentBlockDelta 0) ++
          (AnthEvent.contentBlockStop 0 :: AnthEvent.contentBlockStart 1 "text" ::
            (us.map (AnthEvent.contentBlockDelta 1) ++
              [AnthEvent.contentBlockStop 1, AnthEvent.messageStop])))) =
    us.map (fun u => ({ content := u } : StreamChunk)) ++ [{ done := true }] := by
  have h1 : (("thinking" : String) == "thinking") = true := rfl
  have h2 : (("text" : String) == "thinking") = false := rfl
  simp only [anthChatEvents, anthProcess, h1, h2]
  rw [anth_drop_thinking]
  simp only [anthProcess, if_pos rfl]
  rw [h2, anth_emit_text 1 1 us _ hus]
  simp [anthProcess]

/-- C9, witness: one thinking delta and two text deltas. -/
theorem c9_anthropic_thinking_suppressed_witness :
    anthChatEvents
      (AnthEvent.contentBlockStart 0 "thinking" ::
        (["hmm".toList].map (AnthEvent.contentBlockDelta 0) ++
          (AnthEvent.contentBlockStop 0 :: AnthEvent.contentBlockStart 1 "text" ::
            (["Hi".toList, "!".toList].map (AnthEvent.contentBlockDelta 1) ++
              [AnthEvent.contentBlockStop 1, AnthEvent.messageStop])))) =
    [{ content := "Hi".toList }, { content := "!".toList }, { done := true }] := by
  have h := c9_anthropic_thinking_suppressed ["hmm".toList]
    ["Hi".toList, "!".toList] (by decide)
  simpa using h

/-! ### Claim C10: the OpenAI adapter's delta filter -/

/-- Every chunk the OpenAI adapter emits survives the skip test, whose
first two disjuncts are exactly the case-insensitive containment checks. -/
theorem openAIEmit_marker_free (deltas : List Str) :
    ∀ c ∈ openAIEmitDeltas deltas,
      containsStr (c.content.map toLowerGo) ("thinking".toList) = false ∧
      containsStr (c.content.map toLowerGo) ("signature".toList) = false := by
  induction deltas with
  | nil => intro c hc; simp [openAIEmitDeltas] at hc
  | cons d ds ih =>
    intro c hc
    by_cases hd : d ≠ [] ∧ ¬ openAISkipDelta d
    · rw [openAIEmitDeltas, if_pos hd] at hc
      rcases List.mem_cons.mp hc with h | h
      · subst h
        have hskip : openAISkipDelta d = false := by
          simpa using hd.2
        simp only [openAISkipDelta, Bool.or_eq_false_iff] at hskip
        exact ⟨hskip.1.1, hskip.1.2⟩
      · exact ih c h
    · rw [openAIEmitDeltas, if_neg hd] at hc
      exact ih c hc

/-- C10: every chunk the OpenAI adapter emits is free of the substrings
"thinking" and "signature" (case-insensitively), and an upstream delta
containing either word is dropped: no emitted chunk carries its text. -/
theorem c10_openai_chunk_filter (deltas : List Str) :
    (∀ c ∈ openAIEmitDeltas deltas,
      containsStr (c.content.map toLowerGo) ("thinking".toList) = false ∧
      containsStr (c.content.map toLowerGo) ("signature".toList) = false) ∧
    (∀ d ∈ deltas,
      (containsStr (d.map toLowerGo) ("thinking".toList) = true ∨
       containsStr (d.map toLowerGo) ("signature".toList) = true) →
      ∀ c ∈ openAIEmitDeltas deltas, c.content ≠ d) := by
  refine ⟨openAIEmit_marker_free deltas, ?_⟩
  intro d _ hcond c hc heq
  have h := openAIEmit_marker_free deltas c hc
  rw [heq] at h
  rcases hcond with hx | hx
  · rw [h.1] at hx; exact Bool.false_ne_true hx
  · rw [h.2] at hx; exact Bool.false_ne_true hx

/-- C10, witness: on a concrete delta sequence, the prose delta carrying
the word "thinking" never reaches an emitted chunk. -/
theorem c10_openai_chunk_filter_witness :
    containsStr ((({ content := "Hello".toList } : StreamChunk)).content.map toLowerGo)
      ("thinking".toList) = false ∧
    (({ content := "Hello".toList } : StreamChunk)).content ≠ "I am thinking".toList := by
  constructor
  · exact ((c10_openai_chunk_filter
      ["Hello".toList, "I am thinking".toList, "ok".toList]).1
      { content := "Hello".toList } (by decide)).1
  · exact (c10_openai_chunk_filter
      ["Hello".toList, "I am thinking".toList, "ok".toList]).2
      ("I am thinking".toList) (by decide) (Or.inl (by decide))
      { content := "Hello".toList } (by decide)

/-! ### Turn-processing lemmas -/

/-- Streaming chunks that end in a cancellation: the flag is cleared, the
events end with `end` after chunk events only, no message is stored. -/
theorem runChunks_cancel (m : Manager) (a : Agent) (msgId : String)
    (cs : List StreamChunk) :
    (∀ c ∈ cs, c.error = none ∧ c.done = false) →
    ∀ (evs : List StreamMessage) (acc : Str),
    ∃ evs',
      m.runChunks a msgId (cs ++ [{ error := some .canceled }]) evs acc =
        ({ m with isTurnInProgress := false },
         evs ++ evs' ++ [{ type := "end", agentId := a.id, messageId := msgId }],
         .ok ()) ∧
      ∀ e ∈ evs', e.type = "chunk" := by
  induction cs with
  | nil =>
    intro _ evs acc
    refine ⟨[], ?_, by simp⟩
    simp [Manager.runChunks, isCancelErr]
  | cons c cs ih =>
    intro h evs acc
    have hc := h c (List.mem_cons_self _ _)
    have hrest := fun x hx => h x (List.mem_cons_of_mem _ hx)
    by_cases hcc : c.content = []
    · obtain ⟨evs', heq, hty⟩ := ih hrest evs acc
      refine ⟨evs', ?_, hty⟩
      simpa [Manager.runChunks, hc.1, hc.2, hcc] using heq
    · obtain ⟨evs', heq, hty⟩ := ih hrest
        (evs ++ [{ type := "chunk", agentId := a.id, content := c.content,
                   messageId := msgId }]) (acc ++ c.content)
      refine ⟨{ type := "chunk", agentId := a.id, content := c.content,
                messageId := msgId } :: evs', ?_, ?_⟩
      · simpa [Manager.runChunks, hc.1, hc.2, hcc] using heq
      · intro e he
        rcases List.mem_cons.mp he with h1 | h1
        · subst h1; rfl
        · exact hty e h1

/-- Streaming chunks with no error: the accumulated message is stored, the
flag is cleared, the turn succeeds, and the events end with `end` after
chunk events only. -/
theorem runChunks_ok (m : Manager) (a : Agent) (msgId : String)
    (cs : List StreamChunk) :
    (∀ c ∈ cs, c.error = none) →
    ∀ (evs : List StreamMessage) (acc : Str),
    ∃ evs' content,
      m.runChunks a msgId cs evs acc =
        ({ m with
            messages := m.messages ++
              [{ id := msgId, agentId := a.id, agentName := a.name,
                 content := content, color := a.color }],
            isTurnInProgress := false },
         evs ++ evs' ++ [{ type := "end", agentId := a.id, messageId := msgId }],
         .ok ()) ∧
      ∀ e ∈ evs', e.type = "chunk" := by
  induction cs with
  | nil =>
    intro _ evs acc
    refine ⟨[], cleanMessageContent acc, ?_, by simp⟩
    simp [Manager.runChunks, Manager.finalizeTurn]
  | cons c cs ih =>
    intro h evs acc
    have hc := h c (List.mem_cons_self _ _)
    have hrest := fun x hx => h x (List.mem_cons_of_mem _ hx)
    by_cases hdone : c.done = true
    · by_cases hcc : c.content = []
      · refine ⟨[], cleanMessageContent acc, ?_, by simp⟩
        simp [Manager.runChunks, Manager.finalizeTurn, hc, hcc, hdone]
      · refine ⟨[{ type := "chunk", agentId := a.id, content := c.content,
                   messageId := msgId }], cleanMessageContent (acc ++ c.content),
                 ?_, by simp⟩
        simp [Manager.runChunks, Manager.finalizeTurn, hc, hcc, hdone]
    · have hdf : c.done = false := by simpa using hdone
      by_cases hcc : c.content = []
      · obtain ⟨evs', content, heq, hty⟩ := ih hrest evs acc
        refine ⟨evs', content, ?_, hty⟩
        simpa [Manager.runChunks, hc, hcc, hdf] using heq
      · obtain ⟨evs', content, heq, hty⟩ := ih hrest
          (evs ++ [{ type := "chunk", agentId := a.id, content := c.content,
                     messageId := msgId }]) (acc ++ c.content)
        refine ⟨{ type := "chunk", agentId := a.id, content := c.content,
                  messageId := msgId } :: evs', content, ?_, ?_⟩
        · simpa [Manager.runChunks, hc, hcc, hdf] using heq
        · intro e he
          rcases List.mem_cons.mp he with h1 | h1
          · subst h1; rfl
          · exact hty e h1

/-- `selectNextAgent` touches only the cursor. -/
theorem selectNextAgent_state (m : Manager) :
    ((m.selectNextAgent).2).messages = m.messages ∧
    ((m.selectNextAgent).2).agents = m.agents ∧
    ((m.selectNextAgent).2).mode = m.mode ∧
    ((m.selectNextAgent).2).isRunning = m.isRunning ∧
    ((m.selectNextAgent).2).isTurnInProgress = m.isTurnInProgress ∧
    ((m.selectNextAgent).2).msgCounter = m.msgCounter := by
  unfold Manager.selectNextAgent
  rcases hm : m.messages.getLast? with _ | lm
  · simp [hm]
  · rcases hf : findOther lm.agentId m.agents 0 with _ | ⟨i, a⟩ <;> simp [hm, hf]

/-- The locked head of `NextTurn` succeeds on a running, un-flagged session
with a nonempty roster, leaving everything but the flag and cursor alone. -/
theorem nextTurnBegin_ok (m : Manager)
    (hrun : m.isRunning = true) (hflag : m.isTurnInProgress = false)
    (hne : m.agents.length ≠ 0) :
    ∃ m1 a, m.nextTurnBegin = .ok (m1, a) ∧
      m1.messages = m.messages ∧ m1.agents = m.agents ∧ m1.mode = m.mode ∧
      m1.isRunning = true ∧ m1.isTurnInProgress = true ∧
      m1.msgCounter = m.msgCounter := by
  rcases hmode : m.mode with _ | _
  · refine ⟨{ m with isTurnInProgress := true,
                     currentIndex := (m.currentIndex + 1) % m.agents.length },
      m.agents.getD m.currentIndex defaultAgent, ?_, by simp, by simp,
      by simp [hmode], by simp [hrun], by simp, by simp⟩
    simp [Manager.nextTurnBegin, hrun, hflag, hne, hmode]
  · obtain ⟨h1, h2, h3, h4, h5, h6⟩ :=
      selectNextAgent_state { m with isTurnInProgress := true }
    refine ⟨(({ m with isTurnInProgress := true } : Manager).selectNextAgent).2,
      (({ m with isTurnInProgress := true } : Manager).selectNextAgent).1, ?_,
      by simpa using h1, by simpa using h2, by simpa [hmode] using h3,
      by simpa [hrun] using h4, by simpa using h5, by simpa using h6⟩
    simp [Manager.nextTurnBegin, hrun, hflag, hne, hmode]

/-! ### Claim C5: stop mid-stream ends the turn gracefully -/

/-- C5: if a running turn's stream is cut off by cancellation (the adapter
surfaces the `context.Canceled` cause after any number of content chunks),
the turn's event sequence contains no `error` event and ends with `end`,
the call reports success, the turn-in-progress flag is cleared, and the
partially accumulated text is discarded: the message log is unchanged. -/
theorem c5_cancel_graceful_end (m : Manager) (cs : List StreamChunk)
    (hrun : m.isRunning = true) (hflag : m.isTurnInProgress = false)
    (hne : m.agents.length ≠ 0)
    (hcs : ∀ c ∈ cs, c.error = none ∧ c.done = false) :
    (m.nextTurn (.ok (cs ++ [{ error := some .canceled }]))).1.messages =
      m.messages ∧
    (m.nextTurn (.ok (cs ++ [{ error := some .canceled }]))).1.isTurnInProgress =
      false ∧
    (m.nextTurn (.ok (cs ++ [{ error := some .canceled }]))).2.2 = .ok () ∧
    ((m.nextTurn (.ok (cs ++ [{ error := some .canceled }]))).2.1.getLast?.map
      StreamMessage.type = some "end") ∧
    (∀ e ∈ (m.nextTurn (.ok (cs ++ [{ error := some .canceled }]))).2.1,
      e.type ≠ "error") := by
  obtain ⟨m1, a, hbegin, hmsgs, _, _, _, _, hcounter⟩ :=
    nextTurnBegin_ok m hrun hflag hne
  obtain ⟨evs', hrc, hty⟩ := runChunks_cancel
    { m1 with msgCounter := m1.msgCounter + 1 } a
    ("msg_" ++ toString (m1.msgCounter + 1)) cs hcs
    [{ type := "start", agentId := a.id, agentName := a.name,
       messageId := "msg_" ++ toString (m1.msgCounter + 1), color := a.color }] []
  have hnt : m.nextTurn (.ok (cs ++ [{ error := some .canceled }])) =
      ({ m1 with msgCounter := m1.msgCounter + 1, isTurnInProgress := false },
       [{ type := "start", agentId := a.id, agentName := a.name,
          messageId := "msg_" ++ toString (m1.msgCounter + 1), color := a.color }] ++
         evs' ++ [{ type := "end", agentId := a.id,
                    messageId := "msg_" ++ toString (m1.msgCounter + 1) }],
       .ok ()) := by
    simp only [Manager.nextTurn, hbegin, Manager.turnBody]
    exact hrc
  rw [hnt]
  refine ⟨by simpa using hmsgs, rfl, rfl, ?_, ?_⟩
  · rw [show
      ([{ type := "start", agentId := a.id, agentName := a.name,
          messageId := "msg_" ++ toString (m1.msgCounter + 1), color := a.color }] ++
        evs' ++ [{ type := "end", agentId := a.id,
                   messageId := "msg_" ++ toString (m1.msgCounter + 1) }]
        : List StreamMessage) =
      ([{ type := "start", agentId := a.id, agentName := a.name,
          messageId := "msg_" ++ toString (m1.msgCounter + 1), color := a.color }] ++
        evs') ++ [{ type := "end", agentId := a.id,
                    messageId := "msg_" ++ toString (m1.msgCounter + 1) }]
      from by simp]
    rw [List.getLast?_concat]
    rfl
  · intro e he
    rcases List.mem_append.mp he with h1 | h1
    · rcases List.mem_append.mp h1 with h2 | h2
      · rcases List.mem_singleton.mp h2 with rfl
        simp
      · have := hty e h2
        rw [this]
        simp
    · rcases List.mem_singleton.mp h1 with rfl
      simp

/-- C5, witness: one content chunk, then cancellation, on the started
two-agent session. -/
theorem c5_cancel_graceful_end_witness :
    (startedRR.nextTurn (.ok ([{ content := "par".toList }] ++
      [{ error := some .canceled }]))).1.messages = startedRR.messages ∧
    (startedRR.nextTurn (.ok ([{ content := "par".toList }] ++
      [{ error := some .canceled }]))).1.isTurnInProgress = false ∧
    (startedRR.nextTurn (.ok ([{ content := "par".toList }] ++
      [{ error := some .canceled }]))).2.2 = .ok () ∧
    ((startedRR.nextTurn (.ok ([{ content := "par".toList }] ++
      [{ error := some .canceled }]))).2.1.getLast?.map
        StreamMessage.type = some "end") := by
  have h := c5_cancel_graceful_end startedRR [{ content := "par".toList }]
    (by decide) (by decide) (by decide) (by decide)
  exact ⟨h.1, h.2.1, h.2.2.1, h.2.2.2.1⟩

/-! ### Claim C7: round-robin speaker sequence -/

/-- One successful `nextTurn` in round-robin mode: the speaker is the agent
at the cursor, the cursor advances by one modulo the roster size, and the
rest of the control state is preserved. -/
theorem nextTurn_rr (m : Manager) (cs : List StreamChunk)
    (hmode : m.mode = .roundRobin) (hrun : m.isRunning = true)
    (hflag : m.isTurnInProgress = false) (hne : m.agents.length ≠ 0)
    (hok : ∀ c ∈ cs, c.error = none) :
    ∃ m' evs,
      m.nextTurn (.ok cs) = (m', evs, .ok ()) ∧
      firstAgentId evs = (m.agents.getD m.currentIndex defaultAgent).id ∧
      m'.agents = m.agents ∧ m'.mode = m.mode ∧ m'.isRunning = true ∧
      m'.isTurnInProgress = false ∧
      m'.currentIndex = (m.currentIndex + 1) % m.agents.length := by
  have hbegin : m.nextTurnBegin = .ok
      ({ m with isTurnInProgress := true,
                currentIndex := (m.currentIndex + 1) % m.agents.length },
       m.agents.getD m.currentIndex defaultAgent) := by
    simp [Manager.nextTurnBegin, hrun, hflag, hne, hmode]
  obtain ⟨evs', content, hrc, hty⟩ := runChunks_ok
    { m with isTurnInProgress := true,
             currentIndex := (m.currentIndex + 1) % m.agents.length,
             msgCounter := m.msgCounter + 1 }
    (m.agents.getD m.currentIndex defaultAgent)
    ("msg_" ++ toString (m.msgCounter + 1)) cs hok
    [{ type := "start", agentId := (m.agents.getD m.currentIndex defaultAgent).id,
       agentName := (m.agents.getD m.currentIndex defaultAgent).name,
       messageId := "msg_" ++ toString (m.msgCounter + 1),
       color := (m.agents.getD m.currentIndex defaultAgent).color }] []
  have hnt : m.nextTurn (.ok cs) =
      ({ m with currentIndex := (m.currentIndex + 1) % m.agents.length,
                msgCounter := m.msgCounter + 1,
                messages := m.messages ++
                  [{ id := "msg_" ++ toString (m.msgCounter + 1),
                     agentId := (m.agents.getD m.currentIndex defaultAgent).id,
                     agentName := (m.agents.getD m.currentIndex defaultAgent).name,
                     content := content,
                     color := (m.agents.getD m.currentIndex defaultAgent).color }],
                isTurnInProgress := false },
       [{ type := "start",
          agentId := (m.agents.getD m.currentIndex defaultAgent).id,
          agentName := (m.agents.getD m.currentIndex defaultAgent).name,
          messageId := "msg_" ++ toString (m.msgCounter + 1),
          color := (m.agents.getD m.currentIndex defaultAgent).color }] ++
         evs' ++ [{ type := "end",
                    agentId := (m.agents.getD m.currentIndex defaultAgent).id,
                    messageId := "msg_" ++ toString (m.msgCounter + 1) }],
       .ok ()) := by
    simp only [Manager.nextTurn, hbegin, Manager.turnBody]
    exact hrc
  rw [hnt]
  exact ⟨_, _, rfl, by simp [firstAgentId], rfl, rfl, hrun, rfl, rfl⟩

/-- Round-robin speaker sequence, for an arbitrary in-range cursor. -/
theorem rr_speaker_seq_aux (runss : List (List StreamChunk)) :
    ∀ (m : Manager), m.mode = .roundRobin → m.isRunning = true →
    m.isTurnInProgress = false → m.currentIndex < m.agents.length →
    (∀ cs ∈ runss, ∀ c ∈ cs, c.error = none) →
    m.runTurns runss = (List.range runss.length).map
      (fun k => (m.agents.getD ((m.currentIndex + k) % m.agents.length)
        defaultAgent).id) := by
  induction runss with
  | nil => intro m _ _ _ _ _; rfl
  | cons cs rest ih =>
    intro m hmode hrun hflag hci hok
    have hne : m.agents.length ≠ 0 := by omega
    obtain ⟨m', evs, hnt, hfa, hag, hmode', hrun', hflag', hcur'⟩ :=
      nextTurn_rr m cs hmode hrun hflag hne (hok cs (List.mem_cons_self _ _))
    have hpos : 0 < m.agents.length := Nat.pos_of_ne_zero hne
    have hci' : m'.currentIndex < m'.agents.length := by
      rw [hcur', hag]; exact Nat.mod_lt _ hpos
    have hrest := ih m' (by rw [hmode', hmode]) hrun' hflag' hci'
      (fun ds hds c hc => hok ds (List.mem_cons_of_mem _ hds) c hc)
    rw [Manager.runTurns, hnt]
    simp only []
    rw [hfa, hrest, List.length_cons, List.range_succ_eq_map, List.map_cons,
      List.map_map]
    congr 1
    · rw [Nat.add_zero, Nat.mod_eq_of_lt hci]
    · rw [hag, hcur']
      refine List.map_congr_left ?_
      intro k _
      simp only [Function.comp_apply, Nat.succ_eq_add_one]
      rw [Nat.mod_add_mod, show m.currentIndex + 1 + k = m.currentIndex + (k + 1)
        from by omega]

/-- C7: in round-robin mode, K successive successful `nextTurn` calls after
`start` (cursor at 0) select `agents[0], agents[1], ...` cyclically,
truncated to K — also when K is not a multiple of the roster size. -/
theorem c7_round_robin_sequence (m : Manager) (runss : List (List StreamChunk))
    (hmode : m.mode = .roundRobin) (hrun : m.isRunning = true)
    (hflag : m.isTurnInProgress = false) (hne : m.agents.length ≠ 0)
    (hcur : m.currentIndex = 0)
    (hok : ∀ cs ∈ runss, ∀ c ∈ cs, c.error = none) :
    m.runTurns runss = (List.range runss.length).map
      (fun k => (m.agents.getD (k % m.agents.length) defaultAgent).id) := by
  have hci : m.currentIndex < m.agents.length := by
    rw [hcur]; exact Nat.pos_of_ne_zero hne
  have h := rr_speaker_seq_aux runss m hmode hrun hflag hci hok
  simpa [hcur] using h

/-- C7, witness: three turns over the two-agent roster yield the cyclic
truncated sequence a, b, a. -/
theorem c7_round_robin_sequence_witness :
    startedRR.runTurns [[{ done := true }], [{ done := true }], [{ done := true }]] =
      ["a", "b", "a"] := by
  have h := c7_round_robin_sequence startedRR
    [[{ done := true }], [{ done := true }], [{ done := true }]]
    (by decide) (by decide) (by decide) (by decide) (by decide) (by decide)
  rw [h]
  decide

/-! ### Claim C8: free-form speaker selection -/

/-- `findOther` only returns roster members. -/
theorem findOther_mem (ls : String) (l : List Agent) :
    ∀ (i j : Nat) (a : Agent), findOther ls l i = some (j, a) → a ∈ l := by
  induction l with
  | nil => intro i j a h; simp [findOther] at h
  | cons x xs ih =>
    intro i j a h
    rw [findOther] at h
    by_cases hx : x.id ≠ ls
    · rw [if_pos hx] at h
      obtain ⟨-, rfl⟩ := Prod.mk.injEq .. ▸ Option.some.inj h
      exact List.mem_cons_self _ _
    · rw [if_neg hx] at h
      exact List.mem_cons_of_mem _ (ih (i + 1) j a h)

/-- If some roster member has a different id, `findOther` finds one. -/
theorem findOther_some (ls : String) (l : List Agent)
    (hb : ∃ b ∈ l, b.id ≠ ls) :
    ∀ i : Nat, ∃ j a, findOther ls l i = some (j, a) ∧ a.id ≠ ls := by
  induction l with
  | nil => exact absurd hb (by simp)
  | cons x xs ih =>
    intro i
    by_cases hx : x.id ≠ ls
    · exact ⟨i, x, by rw [findOther, if_pos hx], hx⟩
    · have hxs : ∃ b ∈ xs, b.id ≠ ls := by
        obtain ⟨b, hbmem, hbne⟩ := hb
        rcases List.mem_cons.mp hbmem with rfl | h
        · exact absurd hbne hx
        · exact ⟨b, h, hbne⟩
      obtain ⟨j, a, hfind, hane⟩ := ih hxs (i + 1)
      exact ⟨j, a, by rw [findOther, if_neg hx]; exact hfind, hane⟩

/-- An in-range `getD` yields a list member. -/
theorem getD_mem_of_lt (l : List Agent) (n : Nat) (d : Agent)
    (h : n < l.length) : l.getD n d ∈ l := by
  induction l generalizing n with
  | nil => simp at h
  | cons x xs ih =>
    cases n with
    | zero => simp [List.getD]
    | succ k =>
      have := ih k (by simpa using h)
      simpa [List.getD] using List.mem_cons_of_mem x (by simpa [List.getD] using this)

/-- The free-form selection always picks a roster member. -/
theorem selectNextAgent_mem (m : Manager) (hne : m.agents.length ≠ 0) :
    (m.selectNextAgent).1 ∈ m.agents := by
  unfold Manager.selectNextAgent
  split
  · exact getD_mem_of_lt _ _ _ (Nat.pos_of_ne_zero hne)
  · split
    · rename_i i a heq
      exact findOther_mem _ m.agents 0 i a heq
    · exact getD_mem_of_lt _ _ _ (Nat.mod_lt _ (Nat.pos_of_ne_zero hne))

/-- When the log is nonempty and some roster member differs from the last
speaker, the free-form selection never repeats that speaker. -/
theorem selectNextAgent_ne (m : Manager) (lm : Message)
    (hlast : m.messages.getLast? = some lm)
    (hb : ∃ b ∈ m.agents, b.id ≠ lm.agentId) :
    ((m.selectNextAgent).1).id ≠ lm.agentId := by
  obtain ⟨j, b, hfind, hbne⟩ := findOther_some lm.agentId m.agents hb 0
  unfold Manager.selectNextAgent
  split
  · rename_i heq
    rw [heq] at hlast
    exact absurd hlast (by simp)
  · rename_i lastMsg heq
    rw [heq] at hlast
    obtain rfl : lastMsg = lm := Option.some.inj hlast
    split
    · rename_i i a hinner
      have hpair : (j, b) = (i, a) := by
        rw [hfind] at hinner
        exact Option.some.inj hinner
      obtain ⟨rfl, rfl⟩ := Prod.ext_iff.mp hpair
      exact hbne
    · rename_i hinner
      rw [hfind] at hinner
      exact absurd hinner (by simp)

/-- In a roster of two or more agents with pairwise distinct ids, some
member differs from any given id. -/
theorem exists_other_id (l : List Agent) (hlen : 2 ≤ l.length)
    (hdist : l.Pairwise (fun x y => x.id ≠ y.id)) (aid : String) :
    ∃ b ∈ l, b.id ≠ aid := by
  match l, hlen with
  | x :: y :: rest, _ =>
    have hxy : x.id ≠ y.id := (List.pairwise_cons.mp hdist).1 y (by simp)
    by_cases hx : x.id = aid
    · exact ⟨y, by simp, fun hy => hxy (by rw [hx, hy])⟩
    · exact ⟨x, by simp, hx⟩

/-- One successful `nextTurn` in free-form mode: the speaker is a roster
member, never equal to the last logged speaker when an alternative exists,
and it becomes the author of the new last log entry. -/
theorem nextTurn_ff (m : Manager) (cs : List StreamChunk)
    (hmode : m.mode = .freeForm) (hrun : m.isRunning = true)
    (hflag : m.isTurnInProgress = false) (hne : m.agents.length ≠ 0)
    (hok : ∀ c ∈ cs, c.error = none) :
    ∃ (m' : Manager) (evs : List StreamMessage) (content : Str) (a : Agent),
      m.nextTurn (.ok cs) = (m', evs, .ok ()) ∧
      a ∈ m.agents ∧
      firstAgentId evs = a.id ∧
      (∀ lmsg, m.messages.getLast? = some lmsg →
        (∃ b ∈ m.agents, b.id ≠ lmsg.agentId) → a.id ≠ lmsg.agentId) ∧
      m'.agents = m.agents ∧ m'.mode = m.mode ∧ m'.isRunning = true ∧
      m'.isTurnInProgress = false ∧
      (∃ lmsg', m'.messages.getLast? = some lmsg' ∧ lmsg'.agentId = a.id) := by
  have hbegin : m.nextTurnBegin = .ok
      ((({ m with isTurnInProgress := true } : Manager).selectNextAgent).2,
       (({ m with isTurnInProgress := true } : Manager).selectNextAgent).1) := by
    simp [Manager.nextTurnBegin, hrun, hflag, hne, hmode]
  obtain ⟨hm1msgs, hm1ag, hm1mode, hm1run, hm1flag, hm1cnt⟩ :=
    selectNextAgent_state ({ m with isTurnInProgress := true } : Manager)
  obtain ⟨evs', content, hrc, hty⟩ := runChunks_ok
    { (({ m with isTurnInProgress := true } : Manager).selectNextAgent).2 with
        msgCounter :=
          (({ m with isTurnInProgress := true } : Manager).selectNextAgent).2.msgCounter + 1 }
    (({ m with isTurnInProgress := true } : Manager).selectNextAgent).1
    ("msg_" ++ toString
      ((({ m with isTurnInProgress := true } : Manager).selectNextAgent).2.msgCounter + 1))
    cs hok
    [{ type := "start",
       agentId := (({ m with isTurnInProgress := true } : Manager).selectNextAgent).1.id,
       agentName := (({ m with isTurnInProgress := true } : Manager).selectNextAgent).1.name,
       messageId := "msg_" ++ toString
         ((({ m with isTurnInProgress := true } : Manager).selectNextAgent).2.msgCounter + 1),
       color := (({ m with isTurnInProgress := true } : Manager).selectNextAgent).1.color }]
    []
  have hnt0 : m.nextTurn (.ok cs) =
      Manager.runChunks
        { (({ m with isTurnInProgress := true } : Manager).selectNextAgent).2 with
            msgCounter :=
              (({ m with isTurnInProgress := true } : Manager).selectNextAgent).2.msgCounter + 1 }
        (({ m with isTurnInProgress := true } : Manager).selectNextAgent).1
        ("msg_" ++ toString
          ((({ m with isTurnInProgress := true } : Manager).selectNextAgent).2.msgCounter + 1))
        cs
        [{ type := "start",
           agentId := (({ m with isTurnInProgress := true } : Manager).selectNextAgent).1.id,
           agentName := (({ m with isTurnInProgress := true } : Manager).selectNextAgent).1.name,
           messageId := "msg_" ++ toString
             ((({ m with isTurnInProgress := true } : Manager).selectNextAgent).2.msgCounter + 1),
           color := (({ m with isTurnInProgress := true } : Manager).selectNextAgent).1.color }]
        [] := by
    simp only [Manager.nextTurn, hbegin, Manager.turnBody]
  have hnt := hnt0.trans hrc
  refine ⟨_, _, content, (({ m with isTurnInProgress := true } : Manager).selectNextAgent).1,
    hnt, ?_, ?_, ?_, ?_, ?_, ?_, ?_, ?_⟩
  · exact selectNextAgent_mem ({ m with isTurnInProgress := true } : Manager) hne
  · simp [firstAgentId]
  · intro lmsg hlast hb
    exact selectNextAgent_ne ({ m with isTurnInProgress := true } : Manager) lmsg hlast hb
  · exact hm1ag
  · exact hm1mode
  · exact hm1run.trans hrun
  · rfl
  · exact ⟨_, List.getLast?_concat _, rfl⟩

/-- C8, counterexample: in free-form mode, a turn by agent "a", then a
topic change via `Continue` (which appends a system separator as the last
log entry), then another turn: the selection skips only the separator's
author ("system"), so agent "a" speaks twice in direct succession. -/
theorem c8_counterexample :
    (startedFF.nextTurn (.ok [{ content := ['x'], done := true }])).2.2 = .ok () ∧
    firstAgentId (startedFF.nextTurn
      (.ok [{ content := ['x'], done := true }])).2.1 = "a" ∧
    (c8AfterContinue.nextTurn (.ok [{ content := ['y'], done := true }])).2.2 =
      .ok () ∧
    firstAgentId (c8AfterContinue.nextTurn
      (.ok [{ content := ['y'], done := true }])).2.1 = "a" := by decide

/-- C8 (amended): in free-form mode with a roster of at least two agents
with pairwise distinct ids, the selected speaker always differs from the
author of the last logged message; hence two successive successful turns
with no interleaved topic change (whose system separator becomes the last
log entry) never select the same speaker twice. -/
theorem c8_freeform_no_repeat (m : Manager) (cs1 cs2 : List StreamChunk)
    (hmode : m.mode = .freeForm) (hrun : m.isRunning = true)
    (hflag : m.isTurnInProgress = false)
    (hlen : 2 ≤ m.agents.length)
    (hdist : m.agents.Pairwise (fun x y => x.id ≠ y.id))
    (hok1 : ∀ c ∈ cs1, c.error = none) (hok2 : ∀ c ∈ cs2, c.error = none) :
    (m.runTurns [cs1, cs2]).length = 2 ∧
    (m.runTurns [cs1, cs2]).Chain' (fun x y => x ≠ y) := by
  have hne : m.agents.length ≠ 0 := by omega
  obtain ⟨m1, evs1, c1, a1, hnt1, ha1mem, hfa1, -, hag1, hmode1, hrun1, hflag1,
    lm1, hlast1, hlm1⟩ := nextTurn_ff m cs1 hmode hrun hflag hne hok1
  have hmode2 : m1.mode = .freeForm := by rw [hmode1, hmode]
  have hne2 : m1.agents.length ≠ 0 := by rw [hag1]; exact hne
  obtain ⟨m2, evs2, c2, a2, hnt2, ha2mem, hfa2, hne2', hag2, -, -, -, -⟩ :=
    nextTurn_ff m1 cs2 hmode2 hrun1 hflag1 hne2 hok2
  have hother : ∃ b ∈ m1.agents, b.id ≠ lm1.agentId := by
    rw [hag1, hlm1]
    exact exists_other_id m.agents hlen hdist a1.id
  have hne12 : a2.id ≠ a1.id := by
    have h := hne2' lm1 hlast1 hother
    rw [hlm1] at h
    exact h
  have e1 : m.runTurns [cs1, cs2] = [firstAgentId evs1, firstAgentId evs2] := by
    simp only [Manager.runTurns, hnt1, hnt2]
  rw [e1, hfa1, hfa2]
  exact ⟨rfl, List.chain'_pair.mpr (fun h => hne12 h.symm)⟩

/-- C8, witness: two successive free-form turns on the freshly started
two-agent session have distinct speakers. -/
theorem c8_freeform_no_repeat_witness :
    (startedFF.runTurns [[{ done := true, content := ['x'] }],
      [{ done := true, content := ['y'] }]]).length = 2 ∧
    (startedFF.runTurns [[{ done := true, content := ['x'] }],
      [{ done := true, content := ['y'] }]]).Chain' (fun x y => x ≠ y) :=
  c8_freeform_no_repeat startedFF [{ done := true, content := ['x'] }]
    [{ done := true, content := ['y'] }]
    (by decide) (by decide) (by decide) (by decide) (by decide)
    (by decide) (by decide)

/-! ### Claim C2: the sanitizer -/

/-- A pattern occurring at some offset occurs as a substring. -/
theorem containsStr_of_isPrefixOf_drop (pat : Str) :
    ∀ (j : Nat) (s : Str), pat.isPrefixOf (s.drop j) = true →
    containsStr s pat = true := by
  intro j
  induction j with
  | zero =>
    intro s h
    rw [containsStr.eq_def]
    simp only [List.drop_zero] at h
    rw [if_pos h]
  | succ j ih =>
    intro s h
    cases s with
    | nil =>
      simp only [List.drop_nil] at h
      rw [containsStr.eq_def]
      cases pat with
      | nil => simp [List.isPrefixOf]
      | cons c l => simp [List.isPrefixOf] at h
    | cons c t =>
      rw [containsStr.eq_def]
      split_ifs with hp
      · rfl
      · exact ih t (by simpa using h)

/-- `isPrefixOf` is preserved by mapping. -/
theorem isPrefixOf_map (g : Char → Char) :
    ∀ (l s : Str), l.isPrefixOf s = true →
    (l.map g).isPrefixOf (s.map g) = true := by
  intro l
  induction l with
  | nil => intro s _; simp [List.isPrefixOf]
  | cons c cl ih =>
    intro s h
    cases s with
    | nil => simp [List.isPrefixOf] at h
    | cons d t =>
      simp only [List.isPrefixOf, Bool.and_eq_true, beq_iff_eq] at h
      simp only [List.map_cons, List.isPrefixOf, Bool.and_eq_true, beq_iff_eq]
      exact ⟨by rw [h.1], ih t h.2⟩

/-- `contains` is preserved by mapping. -/
theorem containsStr_map (g : Char → Char) :
    ∀ (s pat : Str), containsStr s pat = true →
    containsStr (s.map g) (pat.map g) = true := by
  intro s
  induction s with
  | nil =>
    intro pat h
    rw [containsStr.eq_def] at h
    rw [containsStr.eq_def]
    cases pat with
    | nil => simp [List.isPrefixOf]
    | cons c l => simp [List.isPrefixOf] at h
  | cons c t ih =>
    intro pat h
    rw [containsStr.eq_def] at h
    rw [containsStr.eq_def]
    by_cases h1 : pat.isPrefixOf (c :: t) = true
    · have h2 := isPrefixOf_map g pat (c :: t) h1
      rw [if_pos h2]
    · rw [if_neg (by simpa using h1)] at h
      have h' : containsStr t pat = true := h
      by_cases h2 : (pat.map g).isPrefixOf ((c :: t).map g) = true
      · rw [if_pos h2]
      · rw [if_neg (by simpa using h2)]
        exact ih pat h'

/-- If the continuation fails on every candidate, `firstSome` fails. -/
theorem firstSome_none (l : List Str) (k : Str → Option Str)
    (h : ∀ t ∈ l, k t = none) : firstSome l k = none := by
  induction l with
  | nil => rfl
  | cons c cs ih =>
    rw [firstSome, h c (List.mem_cons_self _ _)]
    exact ih (fun t ht => h t (List.mem_cons_of_mem _ ht))

/-- Every greedy-star candidate is a suffix-by-drop of the input. -/
theorem mem_gCands (cc : CC) (s t : Str) (h : t ∈ gCands cc s) :
    ∃ j, t = s.drop j := by
  simp only [gCands, List.mem_map, List.mem_range] at h
  obtain ⟨i, -, rfl⟩ := h
  exact ⟨_, rfl⟩

/-- A literal that is not a prefix makes the sequence fail. -/
theorem matchP_seq_lit_none (l : Str) (q : Pat) (f : Nat) (s : Str)
    (k : Str → Option Str) (hp : l.isPrefixOf s = false) :
    matchP f (.seq (.lit l) q) s k = none := by
  cases f with
  | zero => rfl
  | succ f =>
    show matchP f (.lit l) s _ = none
    cases f with
    | zero => rfl
    | succ f => simp [matchP, hp]

/-- A leading character missing from the input makes the prefix test fail. -/
theorem isPrefixOf_false_of_head (c : Char) (l s : Str) (hc : c ∉ s) :
    (c :: l).isPrefixOf s = false := by
  cases s with
  | nil => rfl
  | cons d t =>
    have hne : c ≠ d := fun he => hc (he ▸ List.mem_cons_self d t)
    simp [List.isPrefixOf, hne]

/-- A pattern headed by a literal whose first character does not occur in
the input never matches. -/
theorem matchP_headChar_none (c : Char) (l : Str) (q : Pat) (f : Nat)
    (t : Str) (k : Str → Option Str) (hc : c ∉ t) :
    matchP f (.seq (.lit (c :: l)) q) t k = none :=
  matchP_seq_lit_none (c :: l) q f t k (isPrefixOf_false_of_head c l t hc)

/-- The signature-attribute pattern never matches text whose lowercase form
does not contain "signature". -/
theorem matchP_signatureAttr_none (f : Nat) (s : Str) (k : Str → Option Str)
    (h : containsStr (s.map toLowerGo) ("signature".toList) = false) :
    matchP f signatureAttrPat s k = none := by
  have hnosig : ∀ j, ("signature".toList).isPrefixOf (s.drop j) = false := by
    intro j
    by_contra hcon
    have hpre : ("signature".toList).isPrefixOf (s.drop j) = true := by
      simpa using hcon
    have h1 := containsStr_of_isPrefixOf_drop ("signature".toList) j s hpre
    have h2 := containsStr_map toLowerGo s ("signature".toList) h1
    rw [show (("signature".toList).map toLowerGo) = "signature".toList from by decide]
      at h2
    rw [h2] at h
    exact Bool.noConfusion h
  cases f with
  | zero => rfl
  | succ f =>
    show matchP f (.starG .ws) s _ = none
    cases f with
    | zero => rfl
    | succ f =>
      show firstSome (gCands .ws s) _ = none
      apply firstSome_none
      intro t ht
      obtain ⟨j, rfl⟩ := mem_gCands .ws s t ht
      exact matchP_seq_lit_none _ _ _ _ _ (hnosig j)

/-- If the pattern matches at no suffix of `s`, the replacement scan is the
identity. -/
theorem replaceAllG_id (p : Pat) : ∀ (f : Nat) (s : Str),
    (∀ (g : Nat) (t : Str), t <:+ s → matchP g p t some = none) →
    replaceAllG p f s = s := by
  intro f
  induction f with
  | zero => intro s _; rfl
  | succ f ih =>
    intro s h
    cases s with
    | nil => rfl
    | cons c t =>
      have h0 := h ((c :: t).length + 100) (c :: t) (List.suffix_refl _)
      have ht := ih t (fun g t' ht' => h g t' (ht'.trans (List.suffix_cons c t)))
      simp only [replaceAllG, h0, ht]

/-- Substring containment is monotone under extension on the left. -/
theorem containsStr_of_suffix : ∀ (s t pat : Str), t <:+ s →
    containsStr t pat = true → containsStr s pat = true := by
  intro s
  induction s with
  | nil =>
    intro t pat hsuf h
    rw [List.suffix_nil.mp hsuf] at h
    exact h
  | cons c s' ih =>
    intro t pat hsuf h
    rcases hsuf with ⟨u, hu⟩
    cases u with
    | nil =>
      simp only [List.nil_append] at hu
      rw [← hu]
      exact h
    | cons a u' =>
      injection hu with h1 h2
      rw [containsStr.eq_def]
      split_ifs
      · rfl
      · exact ih t pat ⟨u', h2⟩ h

/-- The thinking-block regex leaves `<`-free text unchanged. -/
theorem replace_thinkingBlock_id (x : Str) (h : '<' ∉ x) :
    replaceAllP thinkingBlockPat x = x :=
  replaceAllG_id _ _ _ (fun g t ht =>
    matchP_headChar_none '<' _ _ g t _ (fun hm => h (ht.subset hm)))

/-- The antThinking-block regex leaves `<`-free text unchanged. -/
theorem replace_antThinkingBlock_id (x : Str) (h : '<' ∉ x) :
    replaceAllP antThinkingBlockPat x = x :=
  replaceAllG_id _ _ _ (fun g t ht =>
    matchP_headChar_none '<' _ _ g t _ (fun hm => h (ht.subset hm)))

/-- The signature-block regex leaves `<`-free text unchanged. -/
theorem replace_signatureBlock_id (x : Str) (h : '<' ∉ x) :
    replaceAllP signatureBlockPat x = x :=
  replaceAllG_id _ _ _ (fun g t ht =>
    matchP_headChar_none '<' _ _ g t _ (fun hm => h (ht.subset hm)))

/-- The signature-attribute regex leaves signature-free text unchanged. -/
theorem replace_signatureAttr_id (x : Str)
    (h : containsStr (x.map toLowerGo) ("signature".toList) = false) :
    replaceAllP signatureAttrPat x = x := by
  apply replaceAllG_id
  intro g t ht
  apply matchP_signatureAttr_none
  by_contra hcon
  have h1 : containsStr (t.map toLowerGo) ("signature".toList) = true := by
    simpa using hcon
  have h2 := containsStr_of_suffix (x.map toLowerGo) (t.map toLowerGo)
    ("signature".toList) (ht.map toLowerGo) h1
  rw [h2] at h
  exact Bool.noConfusion h

/-- The JSON-thinking regex leaves brace-free text unchanged. -/
theorem replace_jsonThinking_id (x : Str) (h : '{' ∉ x) :
    replaceAllP jsonThinkingPat x = x :=
  replaceAllG_id _ _ _ (fun g t ht =>
    matchP_headChar_none '{' _ _ g t _ (fun hm => h (ht.subset hm)))

/-- The any-thinking-tag regex leaves `<`-free text unchanged. -/
theorem replace_anyThinkingTag_id (x : Str) (h : '<' ∉ x) :
    replaceAllP anyThinkingTagPat x = x :=
  replaceAllG_id _ _ _ (fun g t ht =>
    matchP_headChar_none '<' _ _ g t _ (fun hm => h (ht.subset hm)))

/-- The any-signature regex leaves quote-free text unchanged. -/
theorem replace_anySignature_id (x : Str) (h : '"' ∉ x) :
    replaceAllP anySignaturePat x = x :=
  replaceAllG_id _ _ _ (fun g t ht =>
    matchP_headChar_none '"' _ _ g t _ (fun hm => h (ht.subset hm)))

/-- The thinking-content-array regex leaves bracket-free text unchanged. -/
theorem replace_thinkingContent_id (x : Str) (h : '[' ∉ x) :
    replaceAllP thinkingContentPat x = x :=
  replaceAllG_id _ _ _ (fun g t ht =>
    matchP_headChar_none '[' _ _ g t _ (fun hm => h (ht.subset hm)))

/-- The content-array regex leaves bracket-free text unchanged. -/
theorem replace_contentArray_id (x : Str) (h : '[' ∉ x) :
    replaceAllP contentArrayPat x = x :=
  replaceAllG_id _ _ _ (fun g t ht =>
    matchP_headChar_none '[' _ _ g t _ (fun hm => h (ht.subset hm)))

/-- `strings.Index` finds nothing when the pattern's first character is
absent. -/
theorem indexOfStr_none_of_head (c : Char) (l : Str) :
    ∀ (s : Str), c ∉ s → indexOfStr s (c :: l) = none := by
  intro s
  induction s with
  | nil =>
    intro _
    rw [indexOfStr.eq_def]
    simp [List.isPrefixOf]
  | cons a t ih =>
    intro h
    rw [indexOfStr.eq_def]
    rw [if_neg (by simp [isPrefixOf_false_of_head c l (a :: t) h])]
    show Option.map (· + 1) (indexOfStr t (c :: l)) = none
    rw [ih (fun hm => h (List.mem_cons_of_mem _ hm))]
    rfl

/-- The `[thinking]` span loop leaves bracket-free text unchanged. -/
theorem bracketLoop_id (x : Str) (h : '[' ∉ x) :
    ∀ g, bracketThinkingLoop g x = x := by
  intro g
  cases g with
  | zero => rfl
  | succ g =>
    rw [bracketThinkingLoop]
    rw [show indexOfStr x ("[thinking]".toList) = none from
      indexOfStr_none_of_head '[' _ x h]

/-- Splitting newline-free text yields the single line. -/
theorem splitNl_single (x : Str) (h : '\n' ∉ x) : splitNl x = [x] := by
  induction x with
  | nil => rfl
  | cons c t ih =>
    have hc : ¬ c = '\n' := fun he => h (he ▸ List.mem_cons_self c t)
    rw [splitNl, if_neg hc, ih (fun hm => h (List.mem_cons_of_mem _ hm))]

/-- `dropWhile` is the identity when the head fails the test. -/
theorem dropWhile_id_of_head (p : Char → Bool) (s : Str)
    (h : ∀ c, s.head? = some c → p c = false) : s.dropWhile p = s := by
  cases s with
  | nil => rfl
  | cons c t => simp [List.dropWhile_cons, h c rfl]

/-- `TrimSpace` is the identity when neither end is whitespace. -/
theorem trimSpace_id (x : Str)
    (hh : ∀ c, x.head? = some c → isSpaceGo c = false)
    (hl : ∀ c, x.getLast? = some c → isSpaceGo c = false) :
    trimSpace x = x := by
  unfold trimSpace
  rw [dropWhile_id_of_head _ _ hh]
  rw [dropWhile_id_of_head _ _ (fun c hc => hl c (by rwa [List.head?_reverse] at hc))]
  exact List.reverse_reverse x

/-- The line filter keeps a clean line. -/
theorem keepLine_true (x : Str) (hx : x ≠ []) (hcomma : x ≠ [','])
    (hforb : ∀ c ∈ x, c ∉ (['<', '"', '{', '}', '[', ']'] : List Char))
    (hthink : containsStr (x.map toLowerGo) ("thinking".toList) = false)
    (hsig : containsStr (x.map toLowerGo) ("signature".toList) = false)
    (hh : ∀ c, x.head? = some c → isSpaceGo c = false)
    (hl : ∀ c, x.getLast? = some c → isSpaceGo c = false) :
    keepLine x = true := by
  have hnotin : ∀ c, c ∈ (['<', '"', '{', '}', '[', ']'] : List Char) → c ∉ x :=
    fun c hc hcx => hforb c hcx hc
  have hquote : '"' ∉ x := hnotin '"' (by decide)
  have hbrace : '{' ∉ x := hnotin '{' (by decide)
  have hbracket : '[' ∉ x := hnotin '[' (by decide)
  have hp1 : (quoted "type").isPrefixOf x = false :=
    isPrefixOf_false_of_head '"' _ x hquote
  have hp2 : ('{' :: quoted "type").isPrefixOf x = false :=
    isPrefixOf_false_of_head '{' _ x hbrace
  have hp3 : ('[' :: '{' :: quoted "type").isPrefixOf x = false :=
    isPrefixOf_false_of_head '[' _ x hbracket
  have hcond1 : ¬(x = [] ∨ x = [','] ∨ x = ['{'] ∨ x = ['}'] ∨
      x = ['['] ∨ x = [']']) := by
    rintro (h1 | h1 | h1 | h1 | h1 | h1)
    · exact hx h1
    · exact hcomma h1
    · exact hbrace (by rw [h1]; simp)
    · exact hnotin '}' (by decide) (by rw [h1]; simp)
    · exact hbracket (by rw [h1]; simp)
    · exact hnotin ']' (by decide) (by rw [h1]; simp)
  have hcond2 : ¬(containsStr (x.map toLowerGo) ("thinking".toList) = true ∨
      containsStr (x.map toLowerGo) ("signature".toList) = true ∨
      (quoted "type").isPrefixOf x = true ∨
      ('{' :: quoted "type").isPrefixOf x = true ∨
      ('[' :: '{' :: quoted "type").isPrefixOf x = true) := by
    rintro (h1 | h1 | h1 | h1 | h1)
    · rw [h1] at hthink; exact Bool.noConfusion hthink
    · rw [h1] at hsig; exact Bool.noConfusion hsig
    · rw [hp1] at h1; exact Bool.noConfusion h1
    · rw [hp2] at h1; exact Bool.noConfusion h1
    · rw [hp3] at h1; exact Bool.noConfusion h1
  unfold keepLine
  rw [trimSpace_id x hh hl]
  rw [if_neg hcond1, if_neg hcond2]

/-- Deleting an absent two-character pattern is the identity. -/
theorem removeAll2_id (p q : Char) : ∀ (s : Str), p ∉ s → removeAll2 p q s = s
  | [], _ => rfl
  | [_], _ => rfl
  | c :: d :: t, h => by
    have hc : ¬(c = p ∧ d = q) :=
      fun hpq => h (hpq.1 ▸ List.mem_cons_self _ _)
    rw [removeAll2, if_neg hc]
    rw [removeAll2_id p q (d :: t) (fun hm => h (List.mem_cons_of_mem _ hm))]

/-- C2, counterexample: on "thin{}king" the claimed idempotence fails. The
first pass reaches the final artifact collapse, whose `{}` deletion splices
the surrounding fragments into the word "thinking"; the second pass's line
filter then deletes the whole line, so clean(clean(x)) differs from
clean(x). -/
theorem c2_counterexample :
    cleanMessageContent c2X = "thinking".toList ∧
    cleanMessageContent (cleanMessageContent c2X) = [] ∧
    cleanMessageContent (cleanMessageContent c2X) ≠ cleanMessageContent c2X := by
  refine ⟨by decide, by decide, by decide⟩

/-- C2 (amended): `clean("") = ""`, and the sanitizer returns unchanged —
and is therefore idempotent on — every nonempty single-line text that has
no leading or trailing whitespace, is not the lone-comma residue line,
contains none of the structural characters that can trigger a pattern or
the artifact collapse, and is free of the (case-insensitive) marker words
"thinking" and "signature". Unrestricted idempotence is false (see the
counterexample): the final artifact collapse can splice a new marker word,
which one further pass then deletes. -/
theorem c2_clean_fixed_points (x : Str)
    (hx : x ≠ []) (hcomma : x ≠ [','])
    (hforb : ∀ c ∈ x, c ∉ (['<', '"', '{', '}', '[', ']', '\n'] : List Char))
    (hthink : containsStr (x.map toLowerGo) ("thinking".toList) = false)
    (hsig : containsStr (x.map toLowerGo) ("signature".toList) = false)
    (hh : (x.head?.all fun c => !isSpaceGo c) = true)
    (hl : (x.getLast?.all fun c => !isSpaceGo c) = true) :
    cleanMessageContent [] = [] ∧
    cleanMessageContent x = x ∧
    cleanMessageContent (cleanMessageContent x) = cleanMessageContent x := by
  have hnotin : ∀ c, c ∈ (['<', '"', '{', '}', '[', ']', '\n'] : List Char) →
      c ∉ x := fun c hc hcx => hforb c hcx hc
  have hlt : '<' ∉ x := hnotin '<' (by decide)
  have hquote : '"' ∉ x := hnotin '"' (by decide)
  have hbrace : '{' ∉ x := hnotin '{' (by decide)
  have hbracket : '[' ∉ x := hnotin '[' (by decide)
  have hnl : '\n' ∉ x := hnotin '\n' (by decide)
  have hh' : ∀ c, x.head? = some c → isSpaceGo c = false := by
    intro c hc
    rw [hc] at hh
    simpa using hh
  have hl' : ∀ c, x.getLast? = some c → isSpaceGo c = false := by
    intro c hc
    rw [hc] at hl
    simpa using hl
  have e1 := replace_thinkingBlock_id x hlt
  have e2 := replace_antThinkingBlock_id x hlt
  have e3 := replace_signatureBlock_id x hlt
  have e4 := replace_signatureAttr_id x hsig
  have e5 := replace_jsonThinking_id x hbrace
  have e6 := replace_anyThinkingTag_id x hlt
  have e7 := replace_anySignature_id x hquote
  have e8 := replace_thinkingContent_id x hbracket
  have e9 := replace_contentArray_id x hbracket
  have e10 := bracketLoop_id x hbracket (x.length + 1)
  have e11 := splitNl_single x hnl
  have hforb6 : ∀ c ∈ x, c ∉ (['<', '"', '{', '}', '[', ']'] : List Char) := by
    intro c hc hmem
    apply hforb c hc
    simp only [List.mem_cons] at hmem ⊢
    tauto
  have e12 := keepLine_true x hx hcomma hforb6 hthink hsig hh' hl'
  have e13 := trimSpace_id x hh' hl'
  have e14 := removeAll2_id '"' '"' x hquote
  have e15 := removeAll2_id '{' '}' x hbrace
  have e16 := removeAll2_id '[' ']' x hbracket
  have hid : cleanMessageContent x = x := by
    unfold cleanMessageContent
    rw [if_neg hx]
    simp only [e1, e2, e3, e4, e5, e6, e7, e8, e9]
    rw [e10, e11]
    rw [show List.filter keepLine [x] = [x] from by rw [List.filter_cons, e12]; rfl]
    rw [show joinNl [x] = x from rfl]
    rw [e13, e14, e15, e16, e13]
  exact ⟨rfl, hid, by rw [hid, hid]⟩

/-- C2, witness: the amended fixed-point property evaluated on a clean
concrete line. -/
theorem c2_clean_fixed_points_witness :
    cleanMessageContent [] = [] ∧
    cleanMessageContent ("hello world".toList) = "hello world".toList ∧
    cleanMessageContent (cleanMessageContent ("hello world".toList)) =
      cleanMessageContent ("hello world".toList) :=
  c2_clean_fixed_points ("hello world".toList) (by decide) (by decide)
    (by decide) (by decide) (by decide) (by decide) (by decide)
